import Mathlib

/-!
Verification development for the quantum-routing CapacityNetwork core.

The repository provides `src/QuantumRouting/network.h` (abstract base),
`src/QuantumRouting/networkfactory.cpp` (topology factory) and the unit
tests `src/Test/testcapacitynetwork.cpp`.  The `CapacityNetwork`
implementation itself is not among the provided sources, so its
operations are modelled from the specification and validated against the
literal fixtures asserted by the unit tests.  Weights are modelled as
rationals, samplers as integer-indexed sequences of rationals.
-/

set_option maxRecDepth 4000

/-- Modelled from the spec: the data owned by a `CapacityNetwork`
(spec §3): a directed multigraph with contiguous node ids, a per-edge
residual capacity, and the scalar measurement probability (default 1).
Edges are kept as an insertion-ordered list of `(u, v, w)` triples,
which is exactly what `weights()` returns. -/
structure CapacityNetwork where
  nodes : Nat
  edges : List (Nat × Nat × ℚ)
  prob : ℚ
deriving DecidableEq

/-- Key of a weighted edge entry: the ordered pair `(u, v)`. -/
def edgeKey (t : Nat × Nat × ℚ) : Nat × Nat := (t.1, t.2.1)

/-- One plus the largest node id mentioned by an edge list (the number of
vertices of the underlying adjacency list). -/
def maxNodeId (es : List (Nat × Nat)) : Nat :=
  es.foldl (fun m e => max m (max (e.1 + 1) (e.2 + 1))) 0

/-- Modelled from the spec: the `(weightedEdges)` constructor
(spec §4.5): explicit weights, no reverse insertion, probability
defaults to 1. -/
def capacityNetworkFromWeights (ws : List (Nat × Nat × ℚ)) : CapacityNetwork :=
  { nodes := maxNodeId (ws.map edgeKey), edges := ws, prob := 1 }

/-- Modelled from the spec: the `(edges, sampler, bidirectional)`
constructor (spec §4.5).  The sampler is a sequence of draws consumed in
order, one draw per input edge.  When `bidir` is set the reverse edge is
inserted right after the forward edge carrying the same draw: the unit
test `test_random_weights` asserts that a bidirectional construction of
5 edges with a continuous sampler yields 10 weight triples with exactly
5 distinct values, which rules out an independent second draw. -/
def capacityNetworkFromEdges (es : List (Nat × Nat)) (rv : Nat → ℚ)
    (bidir : Bool) : CapacityNetwork :=
  { nodes := maxNodeId es
    edges := es.enum.flatMap (fun p =>
      (p.2.1, p.2.2, rv p.1) :: (cond bidir [(p.2.2, p.2.1, rv p.1)] []))
    prob := 1 }

/-- Modelled from the spec: `numNodes()` (spec §4.6). -/
def numNodes (st : CapacityNetwork) : Nat := st.nodes

/-- Modelled from the spec: `numEdges()` (spec §4.6). -/
def numEdges (st : CapacityNetwork) : Nat := st.edges.length

/-- Modelled from the spec: `weights()` returns the current residual
capacities as `(u, v, w)` triples (spec §4.5). -/
def weights (st : CapacityNetwork) : List (Nat × Nat × ℚ) := st.edges

/-- Modelled from the spec: `totalCapacity()` = sum of residuals
(spec §4.6). -/
def totalCapacity (st : CapacityNetwork) : ℚ :=
  (st.edges.map (fun t => t.2.2)).sum

/-- Modelled from the spec: the `measurementProbability(p)` setter with
validation `p ∈ (0, 1]` (spec §4.6); failure raises and leaves the
network unchanged. -/
def measurementProbabilitySet (st : CapacityNetwork) (p : ℚ) :
    Option CapacityNetwork :=
  if 0 < p ∧ p ≤ 1 then some { st with prob := p } else none

/-- Residual of the first edge entry with key `e`, if any (the
`(u,v) → edge` lookup of spec §9). -/
def findWeightList : List (Nat × Nat × ℚ) → Nat × Nat → Option ℚ
  | [], _ => none
  | t :: ts, e => if edgeKey t = e then some t.2.2 else findWeightList ts e

/-- Residual of edge `e` in the network, if the edge exists. -/
def findWeight (st : CapacityNetwork) (e : Nat × Nat) : Option ℚ :=
  findWeightList st.edges e

/-- Whether edge `e` exists in the network. -/
def edgeExists (st : CapacityNetwork) (e : Nat × Nat) : Bool :=
  (findWeight st e).isSome

/-- Add `d` to the residual of the first edge entry with key `e`
(no-op when the edge is absent). -/
def addWeightList : List (Nat × Nat × ℚ) → Nat × Nat → ℚ → List (Nat × Nat × ℚ)
  | [], _, _ => []
  | t :: ts, e, d =>
    if edgeKey t = e then (t.1, t.2.1, t.2.2 + d) :: ts
    else t :: addWeightList ts e d

/-- Add `d` to the residual of edge `e` in the network. -/
def addWeight (st : CapacityNetwork) (e : Nat × Nat) (d : ℚ) : CapacityNetwork :=
  { st with edges := addWeightList st.edges e d }

/-- The edge walk `(src, hops[0]), (hops[0], hops[1]), …` of spec §4.10. -/
def walkEdges (src : Nat) (hops : List Nat) : List (Nat × Nat) :=
  List.zip (src :: hops) hops

/-- Modelled from the spec: the edge walk of `addCapacityToPath`
(spec §4.10): each walk edge in turn is looked up (missing edge fails
the call) and has `d` added (a residual driven below 0 fails the call).
Failure commits nothing, per the atomicity contract of spec §5. -/
def applyWalkList (es : List (Nat × Nat × ℚ)) : List (Nat × Nat) → ℚ →
    Option (List (Nat × Nat × ℚ))
  | [], _ => some es
  | e :: rest, d =>
    match findWeightList es e with
    | none => none
    | some w =>
      if w + d < 0 then none else applyWalkList (addWeightList es e d) rest d

/-- Modelled from the spec: `addCapacityToPath(src, hops, delta)`
(spec §4.10); `none` models the thrown `std::runtime_error`. -/
def addCapacityToPath (st : CapacityNetwork) (src : Nat) (hops : List Nat)
    (d : ℚ) : Option CapacityNetwork :=
  (applyWalkList st.edges (walkEdges src hops) d).map
    (fun es => { st with edges := es })

/-- The network state observable after an `addCapacityToPath` call
returns or throws: per the atomicity contract (spec §5) a failing call
leaves the network as it was. -/
def addCapacityToPathRun (st : CapacityNetwork) (src : Nat) (hops : List Nat)
    (d : ℚ) : CapacityNetwork :=
  (addCapacityToPath st src hops d).getD st

/-- Successors of `u` in the edge list, in insertion order. -/
def succsList (es : List (Nat × Nat × ℚ)) (u : Nat) : List Nat :=
  es.filterMap (fun t => if t.1 = u then some t.2.1 else none)

/-- All simple paths (as hop lists, excluding the start node) from `cur`
to `dst` avoiding `visited`, with recursion bounded by `fuel`. -/
def simplePathsAux (es : List (Nat × Nat × ℚ)) :
    Nat → Nat → Nat → List Nat → List (List Nat)
  | 0, _, _, _ => []
  | fuel + 1, cur, dst, visited =>
    (succsList es cur).foldr (fun nxt acc =>
      if nxt = dst then [nxt] :: acc
      else if visited.contains nxt then acc
      else ((simplePathsAux es fuel nxt dst (nxt :: visited)).map
        (fun p => nxt :: p)) ++ acc) []

/-- All simple paths from `src` to `dst` over the given edge list. -/
def simplePaths (es : List (Nat × Nat × ℚ)) (n src dst : Nat) :
    List (List Nat) :=
  simplePathsAux es n src dst [src]

/-- Lexicographic comparison of node lists. -/
def lexLe : List Nat → List Nat → Bool
  | [], _ => true
  | _ :: _, [] => false
  | a :: as, b :: bs => if a < b then true else if a = b then lexLe as bs else false

/-- Path order used for deterministic tie-breaking (spec §9): shorter
paths first, ties by lexicographic node order. -/
def pathLe (p q : List Nat) : Bool :=
  if p.length < q.length then true
  else if p.length = q.length then lexLe p q
  else false

/-- Insert into a list sorted by `le`. -/
def insertSortedBy {α : Type} (le : α → α → Bool) (x : α) : List α → List α
  | [] => [x]
  | y :: ys => if le x y then x :: y :: ys else y :: insertSortedBy le x ys

/-- Insertion sort by `le`. -/
def sortBy {α : Type} (le : α → α → Bool) : List α → List α
  | [] => []
  | x :: xs => insertSortedBy le x (sortBy le xs)

/-- Modelled from the spec: the shortest admissible path search of flow
admission (spec §4.8 step 2): unit edge costs over the subgraph of edges
with residual at least `threshold`, deterministic lexicographic
tie-break. -/
def shortestPathAbove (st : CapacityNetwork) (threshold : ℚ)
    (src dst : Nat) : Option (List Nat) :=
  (sortBy pathLe
    (simplePaths (st.edges.filter (fun t => threshold ≤ t.2.2))
      st.nodes src dst)).head?

/-- Modelled from the spec: a `FlowDescriptor` (spec §3): `(src, dst,
netRate)` on input; `route` fills in `thePath`, `theGrossRate` and the
`theDijsktra` search counter (field names as read by the unit tests). -/
structure FlowDescriptor where
  src : Nat
  dst : Nat
  netRate : ℚ
  thePath : List Nat := []
  theGrossRate : ℚ := 0
  theDijsktra : Nat := 0
deriving DecidableEq

/-- Gross rate needed at every edge of an `L`-edge path to deliver
`netRate` end to end: `netRate / p^(L-1)` (spec §4.8 step 1). -/
def grossOf (p netRate : ℚ) (L : Nat) : ℚ := netRate / p ^ (L - 1)

/-- Every walk edge exists and carries residual at least `g`. -/
def walkFeasible (st : CapacityNetwork) (walk : List (Nat × Nat)) (g : ℚ) : Bool :=
  walk.all (fun e =>
    match findWeight st e with
    | some w => decide (g ≤ w)
    | none => false)

/-- Subtract `g` from every walk edge (spec §4.8 step 5). -/
def subtractPath (st : CapacityNetwork) (walk : List (Nat × Nat)) (g : ℚ) :
    CapacityNetwork :=
  walk.foldl (fun s e => addWeight s e (-g)) st

/-- Modelled from the spec: the per-flow fixed-point search of spec §4.8:
search the admissible subgraph, recompute the gross rate from the found
path length, re-verify, and re-search with a tightened threshold when
verification fails; each search bumps the `theDijsktra` counter. -/
def routeOneAux (f : FlowDescriptor) :
    CapacityNetwork → ℚ → Nat → Nat → CapacityNetwork × FlowDescriptor
  | st, _, count, 0 =>
    (st, { f with thePath := [], theGrossRate := 0, theDijsktra := count })
  | st, threshold, count, fuel + 1 =>
    match shortestPathAbove st threshold f.src f.dst with
    | none =>
      (st, { f with thePath := [], theGrossRate := 0, theDijsktra := count + 1 })
    | some hops =>
      let g := grossOf st.prob f.netRate hops.length
      if walkFeasible st (walkEdges f.src hops) g then
        (subtractPath st (walkEdges f.src hops) g,
          { f with thePath := hops, theGrossRate := g, theDijsktra := count + 1 })
      else
        routeOneAux f st g (count + 1) fuel

/-- Modelled from the spec: admission of a single flow (spec §4.8),
starting from threshold `netRate` (the gross rate of a 1-edge path). -/
def routeOne (st : CapacityNetwork) (f : FlowDescriptor) :
    CapacityNetwork × FlowDescriptor :=
  routeOneAux f st f.netRate 0 (st.edges.length + 1)

/-- Modelled from the spec: per-flow validation (spec §4.8): `src ≠ dst`,
both ids valid, `netRate > 0`. -/
def flowValid (st : CapacityNetwork) (f : FlowDescriptor) : Prop :=
  f.src ≠ f.dst ∧ f.src < st.nodes ∧ f.dst < st.nodes ∧ 0 < f.netRate

instance (st : CapacityNetwork) (f : FlowDescriptor) :
    Decidable (flowValid st f) := by
  unfold flowValid; infer_instance

/-- Modelled from the spec: `route(flows)` (spec §4.8): validation of
every flow happens before any work and a violation fails the entire call
atomically (`none` models the thrown `std::runtime_error`); valid flows
are then admitted in input order. -/
def routeFlows (st : CapacityNetwork) (flows : List FlowDescriptor) :
    Option (CapacityNetwork × List FlowDescriptor) :=
  if flows.all (fun f => decide (flowValid st f)) then
    some (flows.foldl
      (fun acc f =>
        let r := routeOne acc.1 f
        (r.1, acc.2 ++ [r.2]))
      (st, []))
  else none

/-- The network state observable after a `route(flows)` call returns or
throws (spec §4.8: a failed validation is atomic). -/
def routeFlowsRun (st : CapacityNetwork) (flows : List FlowDescriptor) :
    CapacityNetwork :=
  ((routeFlows st flows).map Prod.fst).getD st

/-- Nodes reachable from `s` in at most `k` hops, by `k`-fold frontier
expansion (the unweighted BFS of spec §4.7). -/
def reachWithin (st : CapacityNetwork) (s : Nat) : Nat → List Nat
  | 0 => [s]
  | k + 1 =>
    let prev := reachWithin st s k
    (prev ++ prev.flatMap (succsList st.edges)).dedup

/-- Modelled from the spec: the shortest-path hop distance `d(s, v)`
under unweighted BFS (spec §4.7), `none` when `v` is unreachable from
`s`.  Hop distances never exceed the node count, so searching the first
`numNodes + 1` BFS layers is exhaustive. -/
def hopDist (st : CapacityNetwork) (s v : Nat) : Option Nat :=
  (List.range (st.nodes + 1)).find? (fun k => (reachWithin st s k).contains v)

/-- Membership filter of `reachableNodes` (spec §4.7): `v` is reported
for source `s` iff `v ≠ s` and `lo ≤ d(s, v) ≤ hi`. -/
def reachableFilter (st : CapacityNetwork) (lo hi s v : Nat) : Bool :=
  if v = s then false
  else
    match hopDist st s v with
    | some d => decide (lo ≤ d ∧ d ≤ hi)
    | none => false

/-- Modelled from the spec: `reachableNodes(lo, hi, outDiameter)`
(spec §4.7): one entry per node of the graph, mapping each source `s` to
the nodes `v ≠ s` with `lo ≤ d(s, v) ≤ hi`. -/
def reachableNodes (st : CapacityNetwork) (lo hi : Nat) :
    List (Nat × List Nat) :=
  (List.range st.nodes).map (fun s =>
    (s, (List.range st.nodes).filter (reachableFilter st lo hi s)))

/-- Modelled from the spec: the `outDiameter` output of `reachableNodes`
(spec §4.7): the maximum hop distance encountered over all ordered pairs,
regardless of the filter window. -/
def reachDiameter (st : CapacityNetwork) : Nat :=
  ((List.range st.nodes).flatMap (fun s =>
    (List.range st.nodes).filterMap (fun v =>
      if v = s then none else hopDist st s v))).foldl max 0

/-- Modelled from the spec: an `Allocation` of app admission (spec §3):
an ordered hop list and the gross rate accumulated along it. -/
structure Allocation where
  theHops : List Nat
  theGrossRate : ℚ
deriving DecidableEq

/-- Modelled from the spec: an `AppDescriptor` (spec §3): `(src, peers,
priority)` on input; after `route` it carries the per-peer allocations,
the remaining candidate paths and the `theVisits` selection counter
(field names as read by the unit tests). -/
structure AppDescriptor where
  src : Nat
  peers : List Nat
  priority : ℚ
  theRemainingPaths : List (Nat × List Nat) := []
  theAllocated : List (Nat × List Allocation) := []
  theVisits : Nat := 0
deriving DecidableEq

/-- Total gross rate allocated to an app (spec §4.9). -/
def appGrossRate (a : AppDescriptor) : ℚ :=
  (a.theAllocated.flatMap (fun pa => pa.2.map (fun al => al.theGrossRate))).sum

/-- Total net rate of an app: each allocation contributes
`grossRate · p^(L-1)` for its `L`-edge path (spec §4.9). -/
def appNetRate (p : ℚ) (a : AppDescriptor) : ℚ :=
  (a.theAllocated.flatMap (fun pa => pa.2.map (fun al =>
    al.theGrossRate * p ^ (al.theHops.length - 1)))).sum

/-- Order on `(peer, hops)` candidates: shorter paths first, then
lexicographic hops, then peer id (the deterministic tie-break of
spec §9). -/
def appKeyLe (a b : Nat × List Nat) : Bool :=
  if a.2.length < b.2.length then true
  else if b.2.length < a.2.length then false
  else if a.2 = b.2 then decide (a.1 ≤ b.1)
  else lexLe a.2 b.2

/-- Modelled from the spec: the per-app precomputation of spec §4.9: up
to `k` shortest simple paths from `src` to each peer, stored as ordered
`(peer, hops)` candidates. -/
def appCandidatePaths (st : CapacityNetwork) (k : Nat) (a : AppDescriptor) :
    List (Nat × List Nat) :=
  sortBy appKeyLe (a.peers.flatMap (fun peer =>
    ((sortBy pathLe (simplePaths st.edges st.nodes a.src peer)).take k).map
      (fun hops => (peer, hops))))

/-- Append `amt` of gross rate to the allocation of `(peer, hops)`,
merging with an existing allocation along the same path. -/
def addAllocation (alloc : List (Nat × List Allocation)) (peer : Nat)
    (hops : List Nat) (amt : ℚ) : List (Nat × List Allocation) :=
  match alloc with
  | [] => [(peer, [{ theHops := hops, theGrossRate := amt }])]
  | (q, als) :: rest =>
    if q = peer then
      (q, (if als.any (fun al => al.theHops = hops) then
        als.map (fun al =>
          if al.theHops = hops then
            { al with theGrossRate := al.theGrossRate + amt }
          else al)
      else als ++ [{ theHops := hops, theGrossRate := amt }])) :: rest
    else (q, als) :: addAllocation rest peer hops amt

/-- Minimum residual along a walk (`none` when some edge is missing). -/
def walkBottleneck (st : CapacityNetwork) : List (Nat × Nat) → Option ℚ
  | [] => none
  | [e] => findWeight st e
  | e :: rest =>
    match findWeight st e, walkBottleneck st rest with
    | some w, some b => some (min w b)
    | _, _ => none

/-- Drop the edges whose residual reached zero (the unit test
`test_route_apps` shows `route(apps)` leaves only the edges with
positive residual in `weights()`). -/
def dropSaturated (st : CapacityNetwork) : CapacityNetwork :=
  { st with edges := st.edges.filter (fun t => decide (t.2.2 ≠ 0)) }

/-- Modelled from the spec: one selection of an app in the main loop of
spec §4.9, with the per-step amounts fixed empirically by the literal
Scenario E values (spec §8) that the unit test asserts: the app's front
candidate path is examined (`theVisits` is incremented whether or not
admission succeeds); a path with a missing edge is dropped; otherwise
the admitted gross amount is `quantum · p^(L-1)` capped by the bottleneck
residual, edges driven to zero are removed, and the path is kept. -/
def stepApp (st : CapacityNetwork) (quantum : ℚ) (a : AppDescriptor) :
    CapacityNetwork × AppDescriptor :=
  match a.theRemainingPaths with
  | [] => (st, a)
  | (peer, hops) :: rest =>
    let walk := walkEdges a.src hops
    match walkBottleneck st walk with
    | none =>
      (st, { a with theRemainingPaths := rest, theVisits := a.theVisits + 1 })
    | some b =>
      if b ≤ 0 then
        (st, { a with theRemainingPaths := rest, theVisits := a.theVisits + 1 })
      else
        let step := quantum * st.prob ^ (hops.length - 1)
        let amt := min step b
        (dropSaturated (subtractPath st walk amt),
          { a with
            theAllocated := addAllocation a.theAllocated peer hops amt
            theVisits := a.theVisits + 1 })

/-- Index of the next app with remaining candidate paths, searching
cyclically from `start` (the round-robin of spec §4.9). -/
def findActiveApp (apps : List AppDescriptor) (start : Nat) : Option Nat :=
  ((List.range apps.length).map (fun o => (start + o) % apps.length)).find?
    (fun j => ((apps.get? j).map (fun a => !a.theRemainingPaths.isEmpty)).getD false)

/-- Modelled from the spec: the main loop of app admission (spec §4.9):
repeatedly select the next app with remaining paths in round-robin
order and perform one `stepApp` on it, until no app has any remaining
path; `fuel` bounds the iteration count. -/
def routeAppsLoop (quantum : ℚ) :
    CapacityNetwork → List AppDescriptor → Nat → Nat →
    CapacityNetwork × List AppDescriptor
  | st, apps, _, 0 => (st, apps)
  | st, apps, idx, fuel + 1 =>
    match findActiveApp apps idx with
    | none => (st, apps)
    | some j =>
      match apps.get? j with
      | none => (st, apps)
      | some a =>
        let r := stepApp st quantum a
        routeAppsLoop quantum r.1 (apps.set j r.2) (j + 1) fuel

/-- Modelled from the spec: per-app validation (spec §4.9): non-empty
peers, every peer distinct from `src` and a valid node id, positive
priority. -/
def appValid (st : CapacityNetwork) (a : AppDescriptor) : Prop :=
  a.peers ≠ [] ∧ (∀ q ∈ a.peers, q ≠ a.src ∧ q < st.nodes) ∧ 0 < a.priority

instance (st : CapacityNetwork) (a : AppDescriptor) :
    Decidable (appValid st a) := by
  unfold appValid; infer_instance

/-- Modelled from the spec: `route(apps, quantum, k)` (spec §4.9):
validation (failure modelled by `none`), per-app path precomputation,
then the round-robin admission loop. -/
def routeApps (st : CapacityNetwork) (apps : List AppDescriptor)
    (quantum : ℚ) (k : Nat) : Option (CapacityNetwork × List AppDescriptor) :=
  if apps.all (fun a => decide (appValid st a)) ∧ 0 < quantum ∧ 1 ≤ k then
    some (routeAppsLoop quantum st
      (apps.map (fun a => { a with theRemainingPaths := appCandidatePaths st k a }))
      0 1000)
  else none

/-- The retry cap of the topology factory
(`src/QuantumRouting/networkfactory.cpp`, `MANY_TRIES`). -/
def manyTries : Nat := 1000000

/-- The retry loop of `makeCapacityNetworkPpp`
(`src/QuantumRouting/networkfactory.cpp` lines 57-71): draw coordinates
with the current point-process seed, form links with the original seed,
and on a disconnected attempt advance the point-process seed by 10⁶. -/
def makeCapacityNetworkPppLoop {Coord : Type}
    (draw : Nat → List Coord)
    (links : List Coord → Nat → List (Nat × Nat))
    (connected : List (Nat × Nat) → Bool)
    (rv : Nat → ℚ) (seed : Nat) : Nat → Nat → Option CapacityNetwork
  | _, 0 => none
  | pppSeed, t + 1 =>
    let es := links (draw pppSeed) seed
    if connected es then some (capacityNetworkFromEdges es rv true)
    else makeCapacityNetworkPppLoop draw links connected rv seed
      (pppSeed + 1000000) t

/-- `makeCapacityNetworkPpp` (`src/QuantumRouting/networkfactory.cpp`
lines 47-75), with the point process, link formation and connectivity
oracle abstracted as the opaque collaborators of spec §6; `none` models
the "Could not find a connected network" error. -/
def makeCapacityNetworkPpp {Coord : Type}
    (draw : Nat → List Coord)
    (links : List Coord → Nat → List (Nat × Nat))
    (connected : List (Nat × Nat) → Bool)
    (rv : Nat → ℚ) (seed : Nat) : Option CapacityNetwork :=
  makeCapacityNetworkPppLoop draw links connected rv seed seed manyTries

/-- The unweighted 5-node example edge list of the unit tests
(`exampleEdges`). -/
def exampleEdges : List (Nat × Nat) := [(0, 1), (1, 2), (2, 3), (0, 4), (4, 3)]

/-- The weighted 5-node example graph of the unit tests
(`exampleEdgeWeights`): all weights 4 except edge 0→4 which is 1. -/
def exampleEdgeWeights : List (Nat × Nat × ℚ) :=
  [(0, 1, 4), (1, 2, 4), (2, 3, 4), (0, 4, 1), (4, 3, 4)]

/-- The 7-node example graph of the unit tests
(`anotherExampleEdgeWeights`): all weights 1. -/
def anotherExampleEdgeWeights : List (Nat × Nat × ℚ) :=
  [(0, 1, 1), (0, 2, 1), (1, 3, 1), (2, 3, 1), (3, 1, 1), (3, 2, 1),
   (3, 4, 1), (3, 5, 1), (4, 3, 1), (4, 6, 1), (5, 3, 1), (5, 6, 1)]

/-- The 5-node example network. -/
def exampleNetwork : CapacityNetwork := capacityNetworkFromWeights exampleEdgeWeights

/-- The 5-node example network with `measurementProbability(0.5)` set
through the setter. -/
def exampleNetworkHalf : CapacityNetwork :=
  (measurementProbabilitySet exampleNetwork (1 / 2)).getD exampleNetwork

/-- The 7-node example network. -/
def anotherExampleNetwork : CapacityNetwork :=
  capacityNetworkFromWeights anotherExampleEdgeWeights

/-- The apps of Scenario E (`test_route_apps`): app 0 with peers {2, 3}
and app 1 with peer {3}, both priority 1. -/
def appsE : List AppDescriptor :=
  [{ src := 0, peers := [2, 3], priority := 1 },
   { src := 1, peers := [3], priority := 1 }]

/-- The network state Scenario E is expected to leave behind: residuals
1.9 on 0→1 and 2.1 on 2→3, edge 4→3 back at 3, the saturated edges 1→2
and 0→4 gone. -/
def stE : CapacityNetwork :=
  { nodes := 5, edges := [(0, 1, 19/10), (2, 3, 21/10), (4, 3, 3)], prob := 1/2 }

/-- Expected final descriptor of app 0 in Scenario E: 8 visits, gross
2.1 on path [1, 2] for peer 2 and gross 1 on path [4, 3] for peer 3. -/
def appE0 : AppDescriptor :=
  { src := 0, peers := [2, 3], priority := 1, theRemainingPaths := [],
    theAllocated := [(2, [{ theHops := [1, 2], theGrossRate := 21/10 }]),
                     (3, [{ theHops := [4, 3], theGrossRate := 1 }])],
    theVisits := 8 }

/-- Expected final descriptor of app 1 in Scenario E: 4 visits, gross
1.9 on path [2, 3] for peer 3. -/
def appE1 : AppDescriptor :=
  { src := 1, peers := [3], priority := 1, theRemainingPaths := [],
    theAllocated := [(3, [{ theHops := [2, 3], theGrossRate := 19/10 }])],
    theVisits := 4 }

theorem addWeightList_map_key (ts : List (Nat × Nat × ℚ)) (e : Nat × Nat) (d : ℚ) :
    (addWeightList ts e d).map edgeKey = ts.map edgeKey := by
  induction ts with
  | nil => rfl
  | cons t ts ih =>
    simp only [addWeightList]
    by_cases h : edgeKey t = e
    · rw [if_pos h]
      simp only [List.map_cons]
      rfl
    · rw [if_neg h]
      simp only [List.map_cons, ih]

theorem findWeightList_addWeightList_isSome (ts : List (Nat × Nat × ℚ))
    (e : Nat × Nat) (d : ℚ) (e2 : Nat × Nat) :
    (findWeightList (addWeightList ts e d) e2).isSome =
      (findWeightList ts e2).isSome := by
  induction ts with
  | nil => rfl
  | cons t ts ih =>
    simp only [addWeightList]
    by_cases h : edgeKey t = e
    · rw [if_pos h]
      have hk : edgeKey (t.1, t.2.1, t.2.2 + d) = edgeKey t := rfl
      by_cases h2 : edgeKey t = e2
      · simp [findWeightList, hk, h2]
      · simp only [findWeightList, hk, if_neg h2]
    · rw [if_neg h]
      by_cases h2 : edgeKey t = e2
      · simp [findWeightList, h2]
      · simp only [findWeightList, if_neg h2, ih]

theorem findWeightList_addWeightList_ne (ts : List (Nat × Nat × ℚ))
    (e : Nat × Nat) (d : ℚ) (e2 : Nat × Nat) (hne : e2 ≠ e) :
    findWeightList (addWeightList ts e d) e2 = findWeightList ts e2 := by
  induction ts with
  | nil => rfl
  | cons t ts ih =>
    simp only [addWeightList]
    by_cases h : edgeKey t = e
    · rw [if_pos h]
      have hk : edgeKey (t.1, t.2.1, t.2.2 + d) = edgeKey t := rfl
      have h2 : edgeKey t ≠ e2 := by rw [h]; exact fun hh => hne hh.symm
      simp only [findWeightList, hk, if_neg h2]
    · rw [if_neg h]
      by_cases h2 : edgeKey t = e2
      · simp only [findWeightList, if_pos h2]
      · simp only [findWeightList, if_neg h2, ih]

theorem findWeightList_addWeightList_self (ts : List (Nat × Nat × ℚ))
    (e : Nat × Nat) (d : ℚ) (w : ℚ) (hw : findWeightList ts e = some w) :
    findWeightList (addWeightList ts e d) e = some (w + d) := by
  induction ts with
  | nil => simp [findWeightList] at hw
  | cons t ts ih =>
    simp only [addWeightList]
    by_cases h : edgeKey t = e
    · rw [if_pos h]
      simp only [findWeightList, if_pos h] at hw
      have hk : edgeKey (t.1, t.2.1, t.2.2 + d) = edgeKey t := rfl
      simp only [findWeightList, hk, if_pos h]
      rw [Option.some_inj] at hw
      rw [hw]
    · rw [if_neg h]
      simp only [findWeightList, if_neg h] at hw
      simp only [findWeightList, if_neg h, ih hw]

theorem sum_addWeightList (ts : List (Nat × Nat × ℚ)) (e : Nat × Nat) (d : ℚ)
    (h : (findWeightList ts e).isSome = true) :
    ((addWeightList ts e d).map (fun t => t.2.2)).sum =
      (ts.map (fun t => t.2.2)).sum + d := by
  induction ts with
  | nil => simp [findWeightList] at h
  | cons t ts ih =>
    simp only [addWeightList]
    by_cases hk : edgeKey t = e
    · rw [if_pos hk]
      simp only [List.map_cons, List.sum_cons]
      ring
    · rw [if_neg hk]
      simp only [findWeightList, if_neg hk] at h
      simp only [List.map_cons, List.sum_cons, ih h]
      ring

theorem totalCapacity_addWeight (st : CapacityNetwork) (e : Nat × Nat) (d : ℚ)
    (h : edgeExists st e = true) :
    totalCapacity (addWeight st e d) = totalCapacity st + d := by
  unfold totalCapacity addWeight
  exact sum_addWeightList st.edges e d h

theorem edgeExists_addWeight (st : CapacityNetwork) (e : Nat × Nat) (d : ℚ)
    (e2 : Nat × Nat) : edgeExists (addWeight st e d) e2 = edgeExists st e2 := by
  unfold edgeExists addWeight findWeight
  exact findWeightList_addWeightList_isSome st.edges e d e2

theorem walkEdges_length (src : Nat) (hops : List Nat) :
    (walkEdges src hops).length = hops.length := by
  simp [walkEdges]

theorem walkFeasible_exists (st : CapacityNetwork) (walk : List (Nat × Nat))
    (g : ℚ) (h : walkFeasible st walk g = true) :
    ∀ e ∈ walk, edgeExists st e = true := by
  intro e he
  unfold walkFeasible at h
  rw [List.all_eq_true] at h
  have he2 := h e he
  unfold edgeExists
  cases hw : findWeight st e with
  | none => rw [hw] at he2; simp at he2
  | some w => simp

theorem subtractPath_total (walk : List (Nat × Nat)) (st : CapacityNetwork)
    (g : ℚ) (h : ∀ e ∈ walk, edgeExists st e = true) :
    totalCapacity (subtractPath st walk g) =
      totalCapacity st - (walk.length : ℚ) * g := by
  induction walk generalizing st with
  | nil => simp [subtractPath]
  | cons e rest ih =>
    have hstep : subtractPath st (e :: rest) g =
        subtractPath (addWeight st e (-g)) rest g := rfl
    rw [hstep]
    rw [ih (addWeight st e (-g)) (fun e2 he2 => by
      rw [edgeExists_addWeight]
      exact h e2 (List.mem_cons_of_mem e he2))]
    rw [totalCapacity_addWeight st e (-g) (h e (List.mem_cons_self e rest))]
    push_cast [List.length_cons]
    ring

theorem subtractPath_map_key (walk : List (Nat × Nat)) (st : CapacityNetwork)
    (g : ℚ) :
    (subtractPath st walk g).edges.map edgeKey = st.edges.map edgeKey := by
  induction walk generalizing st with
  | nil => rfl
  | cons e rest ih =>
    have hstep : subtractPath st (e :: rest) g =
        subtractPath (addWeight st e (-g)) rest g := rfl
    rw [hstep, ih]
    exact addWeightList_map_key st.edges e (-g)

theorem subtractPath_nodes (walk : List (Nat × Nat)) (st : CapacityNetwork)
    (g : ℚ) : (subtractPath st walk g).nodes = st.nodes := by
  induction walk generalizing st with
  | nil => rfl
  | cons e rest ih => exact ih (addWeight st e (-g))

theorem subtractPath_prob (walk : List (Nat × Nat)) (st : CapacityNetwork)
    (g : ℚ) : (subtractPath st walk g).prob = st.prob := by
  induction walk generalizing st with
  | nil => rfl
  | cons e rest ih => exact ih (addWeight st e (-g))

theorem routeOneAux_total (f : FlowDescriptor) :
    ∀ (fuel : Nat) (st : CapacityNetwork) (th : ℚ) (count : Nat),
    totalCapacity (routeOneAux f st th count fuel).1 =
      totalCapacity st -
        (((routeOneAux f st th count fuel).2.thePath.length : ℚ) *
          (routeOneAux f st th count fuel).2.theGrossRate) := by
  intro fuel
  induction fuel with
  | zero =>
    intro st th count
    simp [routeOneAux]
  | succ fuel ih =>
    intro st th count
    cases hsp : shortestPathAbove st th f.src f.dst with
    | none => simp [routeOneAux, hsp]
    | some hops =>
      by_cases hf :
          walkFeasible st (walkEdges f.src hops)
            (grossOf st.prob f.netRate hops.length) = true
      · simp only [routeOneAux, hsp, hf, if_true]
        rw [subtractPath_total _ _ _ (walkFeasible_exists _ _ _ hf),
          walkEdges_length]
      · simp only [routeOneAux, hsp, hf, if_false]
        exact ih st (grossOf st.prob f.netRate hops.length) (count + 1)

theorem routeOneAux_map_key (f : FlowDescriptor) :
    ∀ (fuel : Nat) (st : CapacityNetwork) (th : ℚ) (count : Nat),
    (routeOneAux f st th count fuel).1.edges.map edgeKey =
      st.edges.map edgeKey := by
  intro fuel
  induction fuel with
  | zero => intro st th count; rfl
  | succ fuel ih =>
    intro st th count
    cases hsp : shortestPathAbove st th f.src f.dst with
    | none => simp [routeOneAux, hsp]
    | some hops =>
      by_cases hf :
          walkFeasible st (walkEdges f.src hops)
            (grossOf st.prob f.netRate hops.length) = true
      · simp only [routeOneAux, hsp, hf, if_true]
        exact subtractPath_map_key _ _ _
      · simp only [routeOneAux, hsp, hf, if_false]
        exact ih st (grossOf st.prob f.netRate hops.length) (count + 1)

theorem routeOne_total (st : CapacityNetwork) (f : FlowDescriptor) :
    totalCapacity (routeOne st f).1 =
      totalCapacity st -
        (((routeOne st f).2.thePath.length : ℚ) * (routeOne st f).2.theGrossRate) :=
  routeOneAux_total f (st.edges.length + 1) st f.netRate 0

theorem routeOne_map_key (st : CapacityNetwork) (f : FlowDescriptor) :
    (routeOne st f).1.edges.map edgeKey = st.edges.map edgeKey :=
  routeOneAux_map_key f (st.edges.length + 1) st f.netRate 0

theorem applyWalkList_map_key (walk : List (Nat × Nat)) :
    ∀ (es : List (Nat × Nat × ℚ)) (d : ℚ) (es2 : List (Nat × Nat × ℚ)),
    applyWalkList es walk d = some es2 → es2.map edgeKey = es.map edgeKey := by
  induction walk with
  | nil =>
    intro es d es2 h
    simp [applyWalkList] at h
    rw [h]
  | cons e rest ih =>
    intro es d es2 h
    simp only [applyWalkList] at h
    cases hfind : findWeightList es e with
    | none => rw [hfind] at h; simp at h
    | some w =>
      rw [hfind] at h
      dsimp only at h
      by_cases hneg : w + d < 0
      · rw [if_pos hneg] at h; simp at h
      · rw [if_neg hneg] at h
        rw [ih (addWeightList es e d) d es2 h]
        exact addWeightList_map_key es e d

theorem applyWalkList_sum (walk : List (Nat × Nat)) :
    ∀ (es : List (Nat × Nat × ℚ)) (d : ℚ) (es2 : List (Nat × Nat × ℚ)),
    applyWalkList es walk d = some es2 →
    (es2.map (fun t => t.2.2)).sum =
      (es.map (fun t => t.2.2)).sum + (walk.length : ℚ) * d := by
  induction walk with
  | nil =>
    intro es d es2 h
    simp [applyWalkList] at h
    rw [h]
    simp
  | cons e rest ih =>
    intro es d es2 h
    simp only [applyWalkList] at h
    cases hfind : findWeightList es e with
    | none => rw [hfind] at h; simp at h
    | some w =>
      rw [hfind] at h
      dsimp only at h
      by_cases hneg : w + d < 0
      · rw [if_pos hneg] at h; simp at h
      · rw [if_neg hneg] at h
        rw [ih (addWeightList es e d) d es2 h]
        rw [sum_addWeightList es e d (by rw [hfind]; rfl)]
        push_cast [List.length_cons]
        ring

theorem routeFoldl_map_key (flows : List FlowDescriptor) :
    ∀ (st : CapacityNetwork) (acc : List FlowDescriptor),
    ((flows.foldl
      (fun acc f =>
        let r := routeOne acc.1 f
        (r.1, acc.2 ++ [r.2]))
      (st, acc)).1.edges).map edgeKey = st.edges.map edgeKey := by
  induction flows with
  | nil => intro st acc; rfl
  | cons f fs ih =>
    intro st acc
    have hstep := ih (routeOne st f).1 (acc ++ [(routeOne st f).2])
    rw [List.foldl_cons]
    exact hstep.trans (routeOne_map_key st f)

theorem routeFlows_map_key (st : CapacityNetwork) (flows : List FlowDescriptor)
    (out : CapacityNetwork × List FlowDescriptor)
    (h : routeFlows st flows = some out) :
    out.1.edges.map edgeKey = st.edges.map edgeKey := by
  unfold routeFlows at h
  by_cases hv : flows.all (fun f => decide (flowValid st f)) = true
  · rw [if_pos hv] at h
    rw [Option.some_inj] at h
    rw [← h]
    exact routeFoldl_map_key flows st []
  · rw [if_neg hv] at h
    simp at h

theorem applyWalkList_fail (walk : List (Nat × Nat)) :
    ∀ (es : List (Nat × Nat × ℚ)) (d : ℚ),
    ((∃ e ∈ walk, (findWeightList es e).isSome = false) ∨
      (d < 0 ∧ ∃ e ∈ walk, ∃ w, findWeightList es e = some w ∧ w + d < 0)) →
    applyWalkList es walk d = none := by
  induction walk with
  | nil =>
    intro es d h
    rcases h with ⟨e, he, _⟩ | ⟨_, e, he, _⟩ <;> simp at he
  | cons e0 rest ih =>
    intro es d h
    cases hfind : findWeightList es e0 with
    | none => simp [applyWalkList, hfind]
    | some w0 =>
      by_cases hneg : w0 + d < 0
      · simp [applyWalkList, hfind, hneg]
      · simp only [applyWalkList, hfind]
        rw [if_neg hneg]
        apply ih
        rcases h with ⟨e, he, hmiss⟩ | ⟨hd, e, he, w, hw, hlt⟩
        · rcases List.mem_cons.mp he with rfl | hrest
          · rw [hfind] at hmiss; simp at hmiss
          · exact Or.inl ⟨e, hrest, by
              rw [findWeightList_addWeightList_isSome]; exact hmiss⟩
        · rcases List.mem_cons.mp he with rfl | hrest
          · rw [hfind] at hw
            rw [Option.some_inj] at hw
            rw [hw] at hneg
            exact absurd hlt hneg
          · by_cases hke : e = e0
            · subst hke
              rw [hfind] at hw
              rw [Option.some_inj] at hw
              refine Or.inr ⟨hd, e, hrest, w0 + d,
                findWeightList_addWeightList_self es e d w0 hfind, ?_⟩
              subst hw
              linarith
            · exact Or.inr ⟨hd, e, hrest, w, by
                rw [findWeightList_addWeightList_ne es e0 d e hke]; exact hw, hlt⟩

theorem find?_of_map {α β : Type} (f : α → β) (p : β → Bool) :
    ∀ l : List α, (l.map f).find? p = (l.find? (fun a => p (f a))).map f := by
  intro l
  induction l with
  | nil => rfl
  | cons a l ih =>
    by_cases h : p (f a) = true
    · simp [List.find?_cons, h]
    · rw [Bool.not_eq_true] at h
      simp only [List.map_cons, List.find?_cons, h]
      exact ih

theorem makeCapacityNetworkPppLoop_spec {Coord : Type}
    (draw : Nat → List Coord)
    (links : List Coord → Nat → List (Nat × Nat))
    (connected : List (Nat × Nat) → Bool)
    (rv : Nat → ℚ) (seed : Nat) :
    ∀ (t base : Nat),
    makeCapacityNetworkPppLoop draw links connected rv seed base t =
      ((List.range t).find?
        (fun i => connected (links (draw (base + 1000000 * i)) seed))).map
        (fun i =>
          capacityNetworkFromEdges (links (draw (base + 1000000 * i)) seed)
            rv true) := by
  intro t
  induction t with
  | zero => intro base; rfl
  | succ t ih =>
    intro base
    rw [List.range_succ_eq_map]
    rw [List.find?_cons]
    by_cases hc : connected (links (draw (base + 1000000 * 0)) seed) = true
    · have hc0 : connected (links (draw base) seed) = true := by
        have harith : base + 1000000 * 0 = base := by omega
        rw [harith] at hc
        exact hc
      simp only [makeCapacityNetworkPppLoop, hc0, if_true, hc]
      have harith : base + 1000000 * 0 = base := by omega
      simp [harith]
    · rw [Bool.not_eq_true] at hc
      have hc0 : connected (links (draw base) seed) = false := by
        have harith : base + 1000000 * 0 = base := by omega
        rw [harith] at hc
        exact hc
      simp only [makeCapacityNetworkPppLoop, hc0, Bool.false_eq_true, if_false, hc]
      rw [find?_of_map]
      have hfun : (fun i => connected (links (draw (base + 1000000 * Nat.succ i)) seed)) =
          (fun i => connected (links (draw (base + 1000000 + 1000000 * i)) seed)) := by
        funext i
        have harith : base + 1000000 * Nat.succ i = base + 1000000 + 1000000 * i := by
          omega
        rw [harith]
      rw [hfun, ih (base + 1000000)]
      rw [Option.map_map]
      have hfun2 : (fun i =>
          capacityNetworkFromEdges (links (draw (base + 1000000 + 1000000 * i)) seed)
            rv true) =
          ((fun i =>
            capacityNetworkFromEdges (links (draw (base + 1000000 * i)) seed)
              rv true) ∘ Nat.succ) := by
        funext i
        have harith : base + 1000000 + 1000000 * i = base + 1000000 * Nat.succ i := by
          omega
        simp [Function.comp, harith]
      rw [hfun2]

theorem reachableNodes_entry (st : CapacityNetwork) (lo hi s : Nat)
    (h : s < st.nodes) :
    (reachableNodes st lo hi)[s]? =
      some (s, (List.range st.nodes).filter (reachableFilter st lo hi s)) := by
  unfold reachableNodes
  simp [List.getElem?_range, h]

theorem mem_reachableFilter (st : CapacityNetwork) (lo hi s v : Nat) :
    v ∈ (List.range st.nodes).filter (reachableFilter st lo hi s) ↔
      (v < st.nodes ∧ v ≠ s ∧
        ∃ d, hopDist st s v = some d ∧ lo ≤ d ∧ d ≤ hi) := by
  rw [List.mem_filter, List.mem_range]
  constructor
  · rintro ⟨hvn, hf⟩
    refine ⟨hvn, ?_, ?_⟩
    · intro hv
      unfold reachableFilter at hf
      rw [if_pos hv] at hf
      simp at hf
    · unfold reachableFilter at hf
      by_cases hv : v = s
      · rw [if_pos hv] at hf; simp at hf
      · rw [if_neg hv] at hf
        cases hd : hopDist st s v with
        | none => rw [hd] at hf; simp at hf
        | some d =>
          rw [hd] at hf
          simp only [decide_eq_true_eq] at hf
          exact ⟨d, rfl, hf.1, hf.2⟩
  · rintro ⟨hvn, hvs, d, hd, hlo, hhi⟩
    refine ⟨hvn, ?_⟩
    unfold reachableFilter
    rw [if_neg hvs, hd]
    simp [hlo, hhi]

theorem reachableFilter_of_unreachable (st : CapacityNetwork) (lo hi s : Nat)
    (h : ∀ v, v ≠ s → hopDist st s v = none) :
    (List.range st.nodes).filter (reachableFilter st lo hi s) = [] := by
  rw [List.filter_eq_nil_iff]
  intro v _
  unfold reachableFilter
  by_cases hv : v = s
  · rw [if_pos hv]; simp
  · rw [if_neg hv, h v hv]; simp

/-- C1 (amended): when a CapacityNetwork is constructed from an edge
list with a sampler and bidirectional set, each input edge consumes one
sampler draw and the reverse edge `(v, u)` is inserted with the same
weight as the forward edge `(u, v)` — a mirrored copy, not an
independent sample; concretely, the bidirectional construction of the
5-edge example with the injective sampler `i ↦ i` yields 10 weight
triples carrying exactly 5 distinct values. -/
theorem bidirectional_weights_mirrored :
    (∀ (es : List (Nat × Nat)) (rv : Nat → ℚ),
      (capacityNetworkFromEdges es rv true).edges =
        es.enum.flatMap (fun p =>
          [(p.2.1, p.2.2, rv p.1), (p.2.2, p.2.1, rv p.1)])) ∧
    (capacityNetworkFromEdges exampleEdges (fun i => (i : ℚ)) true).edges.length
      = 10 ∧
    ((capacityNetworkFromEdges exampleEdges (fun i => (i : ℚ)) true).edges.map
      (fun t => t.2.2)).dedup.length = 5 := by
  refine ⟨fun es rv => rfl, ?_, ?_⟩ <;> with_unfolding_all decide

/-- C1 counterexample: with the injective (continuous-like) sampler
`i ↦ i`, the bidirectional construction gives the reverse edge `(1, 0)`
exactly the weight of the forward edge `(0, 1)` — the reverse weight is
a mirrored copy, and only 5 of the 10 weights are distinct, as the unit
test `test_random_weights` asserts. -/
theorem bidirectional_independent_sampling_counterexample :
    findWeight (capacityNetworkFromEdges exampleEdges (fun i => (i : ℚ)) true)
      (1, 0) =
      findWeight (capacityNetworkFromEdges exampleEdges (fun i => (i : ℚ)) true)
        (0, 1) ∧
    findWeight (capacityNetworkFromEdges exampleEdges (fun i => (i : ℚ)) true)
      (0, 1) = some 0 ∧
    ((capacityNetworkFromEdges exampleEdges (fun i => (i : ℚ)) true).edges.map
      (fun t => t.2.2)).dedup.length = 5 := by
  refine ⟨?_, ?_, ?_⟩ <;> with_unfolding_all decide

/-- C4: on the 5-node example graph with p = 0.5, routing the flows
`[{3→0, 1.0}, {0→3, 1.0}]` leaves the first flow with an empty path,
gross rate 0 and one Dijkstra invocation, admits the second with path
[1, 2, 3], gross rate 4 and two Dijkstra invocations, and leaves the
residuals (0,1,0), (1,2,0), (2,3,0), (0,4,1), (4,3,4). -/
theorem route_flows_scenario_b :
    routeFlows exampleNetworkHalf
      [{ src := 3, dst := 0, netRate := 1 }, { src := 0, dst := 3, netRate := 1 }] =
    some ({ nodes := 5,
            edges := [(0, 1, 0), (1, 2, 0), (2, 3, 0), (0, 4, 1), (4, 3, 4)],
            prob := 1/2 },
      [{ src := 3, dst := 0, netRate := 1, thePath := [], theGrossRate := 0,
         theDijsktra := 1 },
       { src := 0, dst := 3, netRate := 1, thePath := [1, 2, 3],
         theGrossRate := 4, theDijsktra := 2 }]) := by
  with_unfolding_all decide

/-- C7: on the 5-node example graph with p = 0.5, routing the apps
(src 0, peers {2, 3}) and (src 1, peers {3}) with quantum 1.4 and k = 99
allocates [1, 2] for peer 2 and [4, 3] for peer 3 to app 0 and [2, 3]
to app 1, with 8 visits for app 0 and 4 for app 1, total gross rate 5,
total net rate 2.5 and final total capacity 7. -/
theorem route_apps_scenario_e :
    routeApps exampleNetworkHalf appsE (7/5) 99 = some (stE, [appE0, appE1]) ∧
    appE0.theVisits = 8 ∧
    appE1.theVisits = 4 ∧
    appGrossRate appE0 + appGrossRate appE1 = 5 ∧
    appNetRate (1/2) appE0 + appNetRate (1/2) appE1 = 5/2 ∧
    totalCapacity stE = 7 := by
  refine ⟨?_, ?_, ?_, ?_, ?_, ?_⟩ <;> with_unfolding_all decide

/-- C10: `reachableNodes(lo, hi)` returns one entry per node of the
graph for every window, in node order, and a window excluding every
distance maps every source to the empty set, as for window [99, 99] on
the 7-node example. -/
theorem reachableNodes_total_map :
    (∀ (st : CapacityNetwork) (lo hi : Nat),
      (reachableNodes st lo hi).map Prod.fst = List.range st.nodes) ∧
    reachableNodes anotherExampleNetwork 99 99 =
      (List.range 7).map (fun s => (s, ([] : List Nat))) := by
  constructor
  · intro st lo hi
    unfold reachableNodes
    rw [List.map_map]
    have hcomp : (Prod.fst ∘ fun s =>
        (s, (List.range st.nodes).filter (reachableFilter st lo hi s))) = id := by
      funext s
      rfl
    rw [hcomp, List.map_id]
  · decide

/-- C2 (amended): `numEdges()` always equals the number of triples
returned by `weights()`, and no edge is ever added or removed by
`route(flows)`, by `addCapacityToPath` or by the `measurementProbability`
setter — the edge key list is preserved exactly; `route(apps)`, however,
removes the edges whose residual it drives to zero. -/
theorem edges_preserved_except_route_apps :
    (∀ st : CapacityNetwork, numEdges st = (weights st).length) ∧
    (∀ (st : CapacityNetwork) (flows : List FlowDescriptor)
      (out : CapacityNetwork × List FlowDescriptor),
      routeFlows st flows = some out →
      out.1.edges.map edgeKey = st.edges.map edgeKey) ∧
    (∀ (st : CapacityNetwork) (src : Nat) (hops : List Nat) (d : ℚ)
      (st2 : CapacityNetwork),
      addCapacityToPath st src hops d = some st2 →
      st2.edges.map edgeKey = st.edges.map edgeKey) ∧
    (∀ (st : CapacityNetwork) (p : ℚ) (st2 : CapacityNetwork),
      measurementProbabilitySet st p = some st2 → st2.edges = st.edges) := by
  refine ⟨fun st => rfl, routeFlows_map_key, ?_, ?_⟩
  · intro st src hops d st2 h
    unfold addCapacityToPath at h
    cases happ : applyWalkList st.edges (walkEdges src hops) d with
    | none => rw [happ] at h; simp at h
    | some es2 =>
      rw [happ] at h
      simp only [Option.map_some'] at h
      rw [Option.some_inj] at h
      rw [← h]
      exact applyWalkList_map_key (walkEdges src hops) st.edges d es2 happ
  · intro st p st2 h
    unfold measurementProbabilitySet at h
    by_cases hp : 0 < p ∧ p ≤ 1
    · rw [if_pos hp] at h
      rw [Option.some_inj] at h
      rw [← h]
    · rw [if_neg hp] at h
      simp at h

/-- C2 counterexample: the edge 1→2 exists in the 5-edge example
network, but after the Scenario E `route(apps)` call drives its residual
to zero the returned network has only 3 edges and no 1→2 edge — an edge
was removed by a public API call, as the unit test `test_route_apps`
asserts via `weights().size() == 3`. -/
theorem route_apps_removes_edges_counterexample :
    edgeExists exampleNetworkHalf (1, 2) = true ∧
    numEdges exampleNetworkHalf = 5 ∧
    (routeApps exampleNetworkHalf appsE (7/5) 99).map
      (fun r => (numEdges r.1, edgeExists r.1 (1, 2))) = some (3, false) := by
  refine ⟨?_, ?_, ?_⟩ <;> with_unfolding_all decide

/-- C2 witness: a concrete successful `addCapacityToPath` call on the
example network preserves the edge keys. -/
theorem edges_preserved_except_route_apps_witness :
    (({ nodes := 5,
        edges := [(0, 1, 5), (1, 2, 4), (2, 3, 4), (0, 4, 1), (4, 3, 4)],
        prob := 1 } : CapacityNetwork) : CapacityNetwork).edges.map edgeKey =
      exampleNetwork.edges.map edgeKey :=
  edges_preserved_except_route_apps.2.2.1 exampleNetwork 0 [1] 1
    { nodes := 5,
      edges := [(0, 1, 5), (1, 2, 4), (2, 3, 4), (0, 4, 1), (4, 3, 4)],
      prob := 1 }
    (by with_unfolding_all decide)

/-- C3: an `addCapacityToPath(src, hops, delta)` call that fails —
because an edge of the walk does not exist, or because `delta < 0` and
applying it would drive some walk edge's weight below 0 — raises and
leaves every edge weight unchanged: no partial mutation is committed. -/
theorem addCapacityToPath_failure_atomic (st : CapacityNetwork) (src : Nat)
    (hops : List Nat) (d : ℚ)
    (h : (∃ e ∈ walkEdges src hops, edgeExists st e = false) ∨
      (d < 0 ∧ ∃ e ∈ walkEdges src hops, ∃ w,
        findWeight st e = some w ∧ w + d < 0)) :
    addCapacityToPath st src hops d = none ∧
    addCapacityToPathRun st src hops d = st := by
  have hfail : applyWalkList st.edges (walkEdges src hops) d = none := by
    apply applyWalkList_fail
    rcases h with ⟨e, he, hmiss⟩ | ⟨hd, e, he, w, hw, hlt⟩
    · exact Or.inl ⟨e, he, hmiss⟩
    · exact Or.inr ⟨hd, e, he, w, hw, hlt⟩
  constructor
  · unfold addCapacityToPath
    rw [hfail]
    rfl
  · unfold addCapacityToPathRun addCapacityToPath
    rw [hfail]
    rfl

/-- C3 witness: `addCapacityToPath(2, {3}, -10)` on the example network
(residual of 2→3 is 4) fails and leaves the network unchanged, as in the
unit test `test_add_capacity_to_edge`. -/
theorem addCapacityToPath_failure_atomic_witness :
    addCapacityToPath exampleNetworkHalf 2 [3] (-10) = none ∧
    addCapacityToPathRun exampleNetworkHalf 2 [3] (-10) = exampleNetworkHalf :=
  addCapacityToPath_failure_atomic exampleNetworkHalf 2 [3] (-10)
    (Or.inr ⟨by norm_num, (2, 3), by decide,
      4, by with_unfolding_all decide, by norm_num⟩)

/-- C5: `route(flows)` raises exactly when some flow has `src = dst`, an
out-of-range endpoint, or a non-positive net rate, and such a failing
call performs no admission and leaves the network unchanged. -/
theorem route_flows_validation_atomic (st : CapacityNetwork)
    (flows : List FlowDescriptor) :
    (routeFlows st flows = none ↔ ∃ f ∈ flows, ¬ flowValid st f) ∧
    ((∃ f ∈ flows, ¬ flowValid st f) → routeFlowsRun st flows = st) := by
  have hiff : routeFlows st flows = none ↔ ∃ f ∈ flows, ¬ flowValid st f := by
    unfold routeFlows
    by_cases hv : flows.all (fun f => decide (flowValid st f)) = true
    · rw [if_pos hv]
      constructor
      · intro h
        exact absurd h (by simp)
      · rintro ⟨f, hf, hnv⟩
        rw [List.all_eq_true] at hv
        exact absurd (of_decide_eq_true (hv f hf)) hnv
    · rw [if_neg hv]
      constructor
      · intro _
        simp only [List.all_eq_true, decide_eq_true_eq] at hv
        push_neg at hv
        rcases hv with ⟨f, hf, hnv⟩
        exact ⟨f, hf, hnv⟩
      · intro _
        rfl
  refine ⟨hiff, fun h => ?_⟩
  unfold routeFlowsRun
  rw [hiff.mpr h]
  rfl

/-- C5 witness: routing the ill-formed flow {0→0, 1.0} on the example
network fails and leaves the network unchanged, as in the unit test
`test_route_flows`. -/
theorem route_flows_validation_atomic_witness :
    routeFlowsRun exampleNetworkHalf [{ src := 0, dst := 0, netRate := 1 }] =
      exampleNetworkHalf :=
  (route_flows_validation_atomic exampleNetworkHalf
    [{ src := 0, dst := 0, netRate := 1 }]).2
    ⟨{ src := 0, dst := 0, netRate := 1 }, by simp, by
      unfold flowValid
      simp⟩

/-- C6: `reachableNodes(lo, hi)` maps each source `s` to exactly the
nodes `v ≠ s` whose BFS hop distance satisfies `lo ≤ d(s, v) ≤ hi`
(never including `s` itself), sources reaching nothing map to the empty
set, and on the 7-node example the diameter is 4, source 0 reaches
{1, 2, 3, 4, 5, 6} under window [0, 99], source 6 reaches nothing, and
window [2, 2] from source 0 gives exactly {3}. -/
theorem reachableNodes_window_spec :
    (∀ (st : CapacityNetwork) (lo hi s : Nat), s < st.nodes →
      (reachableNodes st lo hi)[s]? =
        some (s, (List.range st.nodes).filter (reachableFilter st lo hi s)) ∧
      ∀ v, v ∈ (List.range st.nodes).filter (reachableFilter st lo hi s) ↔
        (v < st.nodes ∧ v ≠ s ∧
          ∃ d, hopDist st s v = some d ∧ lo ≤ d ∧ d ≤ hi)) ∧
    (∀ (st : CapacityNetwork) (lo hi s : Nat), s < st.nodes →
      (∀ v, v ≠ s → hopDist st s v = none) →
      (reachableNodes st lo hi)[s]? = some (s, [])) ∧
    reachDiameter anotherExampleNetwork = 4 ∧
    (reachableNodes anotherExampleNetwork 0 99).lookup 0 =
      some [1, 2, 3, 4, 5, 6] ∧
    (reachableNodes anotherExampleNetwork 0 99).lookup 6 = some [] ∧
    (reachableNodes anotherExampleNetwork 2 2).lookup 0 = some [3] := by
  refine ⟨?_, ?_, by decide, by decide, by decide, by decide⟩
  · intro st lo hi s hs
    exact ⟨reachableNodes_entry st lo hi s hs,
      fun v => mem_reachableFilter st lo hi s v⟩
  · intro st lo hi s hs hunreach
    rw [reachableNodes_entry st lo hi s hs,
      reachableFilter_of_unreachable st lo hi s hunreach]

/-- C6 witness: the characterization instantiated at the 7-node example
with window [2, 2] and source 0, and the unreachable-source clause at
source 6, which has no outgoing edge. -/
theorem reachableNodes_window_spec_witness :
    ((reachableNodes anotherExampleNetwork 2 2)[0]? =
      some (0, (List.range 7).filter
        (reachableFilter anotherExampleNetwork 2 2 0))) ∧
    (reachableNodes anotherExampleNetwork 0 99)[6]? = some (6, []) := by
  constructor
  · exact (reachableNodes_window_spec.1 anotherExampleNetwork 2 2 0
      (by decide)).1
  · apply reachableNodes_window_spec.2.1 anotherExampleNetwork 0 99 6 (by decide)
    intro v hv
    have hreach : ∀ k, reachWithin anotherExampleNetwork 6 k = [6] := by
      intro k
      induction k with
      | zero => rfl
      | succ k ih =>
        show (reachWithin anotherExampleNetwork 6 k ++
          (reachWithin anotherExampleNetwork 6 k).flatMap
            (succsList anotherExampleNetwork.edges)).dedup = [6]
        rw [ih]
        decide
    unfold hopDist
    rw [List.find?_eq_none]
    intro k _
    rw [hreach k]
    have hbeq : (v == 6) = false := beq_eq_false_iff_ne.mpr hv
    simp [List.contains, List.elem, hbeq]

/-- C8: the topology factory attempts at most 1,000,000 draw-link-test
iterations, using point-process seed `seed + 10⁶·i` at attempt `i` while
always forming links with the original seed; it returns the
bidirectional CapacityNetwork built from the first connected edge list,
and returns the "could not find a connected network" failure exactly
when every attempt is disconnected. -/
theorem makeCapacityNetworkPpp_spec {Coord : Type}
    (draw : Nat → List Coord)
    (links : List Coord → Nat → List (Nat × Nat))
    (connected : List (Nat × Nat) → Bool)
    (rv : Nat → ℚ) (seed : Nat) :
    (makeCapacityNetworkPpp draw links connected rv seed =
      ((List.range manyTries).find?
        (fun i => connected (links (draw (seed + 1000000 * i)) seed))).map
        (fun i =>
          capacityNetworkFromEdges (links (draw (seed + 1000000 * i)) seed)
            rv true)) ∧
    (makeCapacityNetworkPpp draw links connected rv seed = none ↔
      ∀ i < manyTries,
        connected (links (draw (seed + 1000000 * i)) seed) = false) := by
  have h := makeCapacityNetworkPppLoop_spec draw links connected rv seed
    manyTries seed
  constructor
  · exact h
  · unfold makeCapacityNetworkPpp
    rw [h]
    rw [Option.map_eq_none']
    rw [List.find?_eq_none]
    constructor
    · intro hall i hi
      have hx := hall i (List.mem_range.mpr hi)
      rwa [Bool.not_eq_true] at hx
    · intro hall i hi
      rw [Bool.not_eq_true]
      exact hall i (List.mem_range.mp hi)

/-- C8 witness: with oracles whose first draw already yields a connected
edge list, the factory returns the bidirectional network of that list at
once. -/
theorem makeCapacityNetworkPpp_spec_witness :
    makeCapacityNetworkPpp (fun _ => ([] : List Unit)) (fun _ _ => [(0, 1)])
      (fun es => !es.isEmpty) (fun i => (i : ℚ)) 17 =
      some (capacityNetworkFromEdges [(0, 1)] (fun i => (i : ℚ)) true) := by
  rw [(makeCapacityNetworkPpp_spec (fun _ => ([] : List Unit))
    (fun _ _ => [(0, 1)]) (fun es => !es.isEmpty) (fun i => (i : ℚ)) 17).1]
  rw [show manyTries = 999999 + 1 from rfl]
  rw [List.range_succ_eq_map]
  rw [List.find?_cons]
  simp

/-- C9: admitting a flow changes the total capacity by exactly the path
length times the gross rate (a rejected flow, with empty path and gross
rate 0, changes nothing); a successful `addCapacityToPath` adds exactly
`|hops| · delta` to the total capacity, so a call followed by its
inverse restores `totalCapacity()` exactly. -/
theorem capacity_accounting :
    (∀ (st : CapacityNetwork) (f : FlowDescriptor),
      totalCapacity (routeOne st f).1 =
        totalCapacity st -
          (((routeOne st f).2.thePath.length : ℚ) *
            (routeOne st f).2.theGrossRate)) ∧
    (∀ (st : CapacityNetwork) (src : Nat) (hops : List Nat) (d : ℚ)
      (st2 : CapacityNetwork),
      addCapacityToPath st src hops d = some st2 →
      totalCapacity st2 = totalCapacity st + ((hops.length : ℚ) * d)) ∧
    (∀ (st : CapacityNetwork) (src : Nat) (hops : List Nat) (d : ℚ)
      (stA stB : CapacityNetwork),
      addCapacityToPath st src hops d = some stA →
      addCapacityToPath stA src hops (-d) = some stB →
      totalCapacity stB = totalCapacity st) := by
  have hadd : ∀ (st : CapacityNetwork) (src : Nat) (hops : List Nat) (d : ℚ)
      (st2 : CapacityNetwork),
      addCapacityToPath st src hops d = some st2 →
      totalCapacity st2 = totalCapacity st + ((hops.length : ℚ) * d) := by
    intro st src hops d st2 h
    unfold addCapacityToPath at h
    cases happ : applyWalkList st.edges (walkEdges src hops) d with
    | none => rw [happ] at h; simp at h
    | some es2 =>
      rw [happ] at h
      simp only [Option.map_some'] at h
      rw [Option.some_inj] at h
      have hsum := applyWalkList_sum (walkEdges src hops) st.edges d es2 happ
      rw [walkEdges_length] at hsum
      rw [← h]
      unfold totalCapacity
      exact hsum
  refine ⟨routeOne_total, hadd, ?_⟩
  intro st src hops d stA stB hA hB
  rw [hadd stA src hops (-d) stB hB, hadd st src hops d stA hA]
  ring

/-- C9 witness: adding 4 along the walk 0→1→2→3 of the example network
raises the total capacity by 3·4, and the inverse call restores it. -/
theorem capacity_accounting_witness :
    totalCapacity
      ({ nodes := 5,
         edges := [(0, 1, 8), (1, 2, 8), (2, 3, 8), (0, 4, 1), (4, 3, 4)],
         prob := 1 } : CapacityNetwork) =
      totalCapacity exampleNetwork + ((([1, 2, 3] : List Nat).length : ℚ) * 4) ∧
    totalCapacity
      ({ nodes := 5,
         edges := [(0, 1, 4), (1, 2, 4), (2, 3, 4), (0, 4, 1), (4, 3, 4)],
         prob := 1 } : CapacityNetwork) = totalCapacity exampleNetwork := by
  constructor
  · exact capacity_accounting.2.1 exampleNetwork 0 [1, 2, 3] 4 _
      (by with_unfolding_all decide)
  · exact capacity_accounting.2.2 exampleNetwork 0 [1, 2, 3] 4
      { nodes := 5,
        edges := [(0, 1, 8), (1, 2, 8), (2, 3, 8), (0, 4, 1), (4, 3, 4)],
        prob := 1 }
      _ (by with_unfolding_all decide) (by with_unfolding_all decide)
